import Mathlib

/-!
Verification of the geometric core of the bcga shape-grammar engine
(`bpro/shape.py`) against its natural-language specification.

The mesh/vector kernel (Blender's `bmesh`/`mathutils`) is an external
collaborator of the code under verification; it is embedded here just deeply
enough for the functions of `bpro/shape.py` to be translated faithfully:
vectors and matrices are rational-valued records, and the post-extrusion mesh
topology is the standard prism complex produced by `bmesh.ops.extrude_face_region`.
Helpers of this repository that live outside `bpro/shape.py`
(`bpro/utils.py`, `pro/op_split.py`) are modelled from the spec; each such
definition carries a doc comment starting with "Modelled from the spec:".
-/

/-- A 3D vector with rational coordinates (stand-in for `mathutils.Vector`). -/
structure Vec3 where
  x : ℚ
  y : ℚ
  z : ℚ
deriving DecidableEq

instance : Add Vec3 := ⟨fun a b => ⟨a.x + b.x, a.y + b.y, a.z + b.z⟩⟩

instance : Sub Vec3 := ⟨fun a b => ⟨a.x - b.x, a.y - b.y, a.z - b.z⟩⟩

instance : Neg Vec3 := ⟨fun a => ⟨-a.x, -a.y, -a.z⟩⟩

instance : Zero Vec3 := ⟨⟨0, 0, 0⟩⟩

instance : SMul ℚ Vec3 := ⟨fun q v => ⟨q * v.x, q * v.y, q * v.z⟩⟩

theorem Vec3.add_def (a b : Vec3) : a + b = ⟨a.x + b.x, a.y + b.y, a.z + b.z⟩ := rfl

theorem Vec3.sub_def (a b : Vec3) : a - b = ⟨a.x - b.x, a.y - b.y, a.z - b.z⟩ := rfl

theorem Vec3.neg_def (a : Vec3) : -a = ⟨-a.x, -a.y, -a.z⟩ := rfl

theorem Vec3.zero_def : (0 : Vec3) = ⟨0, 0, 0⟩ := rfl

theorem Vec3.smul_def (q : ℚ) (v : Vec3) : q • v = ⟨q * v.x, q * v.y, q * v.z⟩ := rfl

/-- A 3×3 matrix with rational entries (rotation-only transform). -/
structure Mat3 where
  a00 : ℚ
  a01 : ℚ
  a02 : ℚ
  a10 : ℚ
  a11 : ℚ
  a12 : ℚ
  a20 : ℚ
  a21 : ℚ
  a22 : ℚ
deriving DecidableEq

/-- Apply a 3×3 matrix to a vector (`mathutils` matrix–vector product). -/
def Mat3.apply (m : Mat3) (v : Vec3) : Vec3 :=
  ⟨m.a00 * v.x + m.a01 * v.y + m.a02 * v.z,
   m.a10 * v.x + m.a11 * v.y + m.a12 * v.z,
   m.a20 * v.x + m.a21 * v.y + m.a22 * v.z⟩

/-- The identity 3×3 matrix. -/
def idMat3 : Mat3 := ⟨1, 0, 0, 0, 1, 0, 0, 0, 1⟩

/-- A 4×4 matrix with rational entries (stand-in for `mathutils.Matrix`). -/
structure Mat4 where
  b00 : ℚ
  b01 : ℚ
  b02 : ℚ
  b03 : ℚ
  b10 : ℚ
  b11 : ℚ
  b12 : ℚ
  b13 : ℚ
  b20 : ℚ
  b21 : ℚ
  b22 : ℚ
  b23 : ℚ
  b30 : ℚ
  b31 : ℚ
  b32 : ℚ
  b33 : ℚ
deriving DecidableEq

/-- 4×4 matrix multiplication (`mathutils` matrix product). -/
def Mat4.mul (p q : Mat4) : Mat4 :=
  ⟨p.b00 * q.b00 + p.b01 * q.b10 + p.b02 * q.b20 + p.b03 * q.b30,
   p.b00 * q.b01 + p.b01 * q.b11 + p.b02 * q.b21 + p.b03 * q.b31,
   p.b00 * q.b02 + p.b01 * q.b12 + p.b02 * q.b22 + p.b03 * q.b32,
   p.b00 * q.b03 + p.b01 * q.b13 + p.b02 * q.b23 + p.b03 * q.b33,
   p.b10 * q.b00 + p.b11 * q.b10 + p.b12 * q.b20 + p.b13 * q.b30,
   p.b10 * q.b01 + p.b11 * q.b11 + p.b12 * q.b21 + p.b13 * q.b31,
   p.b10 * q.b02 + p.b11 * q.b12 + p.b12 * q.b22 + p.b13 * q.b32,
   p.b10 * q.b03 + p.b11 * q.b13 + p.b12 * q.b23 + p.b13 * q.b33,
   p.b20 * q.b00 + p.b21 * q.b10 + p.b22 * q.b20 + p.b23 * q.b30,
   p.b20 * q.b01 + p.b21 * q.b11 + p.b22 * q.b21 + p.b23 * q.b31,
   p.b20 * q.b02 + p.b21 * q.b12 + p.b22 * q.b22 + p.b23 * q.b32,
   p.b20 * q.b03 + p.b21 * q.b13 + p.b22 * q.b23 + p.b23 * q.b33,
   p.b30 * q.b00 + p.b31 * q.b10 + p.b32 * q.b20 + p.b33 * q.b30,
   p.b30 * q.b01 + p.b31 * q.b11 + p.b32 * q.b21 + p.b33 * q.b31,
   p.b30 * q.b02 + p.b31 * q.b12 + p.b32 * q.b22 + p.b33 * q.b32,
   p.b30 * q.b03 + p.b31 * q.b13 + p.b32 * q.b23 + p.b33 * q.b33⟩

/-- `mathutils.Matrix.Translation v`: the 4×4 matrix translating by `v`. -/
def Mat4.translation (v : Vec3) : Mat4 :=
  ⟨1, 0, 0, v.x,
   0, 1, 0, v.y,
   0, 0, 1, v.z,
   0, 0, 0, 1⟩

/-- Promote a 3×3 rotation to a 4×4 transform with zero translation
(`mathutils` `to_4x4`). -/
def Mat4.ofRot (m : Mat3) : Mat4 :=
  ⟨m.a00, m.a01, m.a02, 0,
   m.a10, m.a11, m.a12, 0,
   m.a20, m.a21, m.a22, 0,
   0, 0, 0, 1⟩

/-- Apply a 4×4 transform to a 3D point, promoting it homogeneously with
`w = 1` as `mathutils` does for a 4×4 matrix times a 3D vector. -/
def Mat4.applyPoint (m : Mat4) (p : Vec3) : Vec3 :=
  ⟨m.b00 * p.x + m.b01 * p.y + m.b02 * p.z + m.b03,
   m.b10 * p.x + m.b11 * p.y + m.b12 * p.z + m.b13,
   m.b20 * p.x + m.b21 * p.y + m.b22 * p.z + m.b23⟩

/-- The state of `Shape2d` read by `Shape2d.getMatrix` (`bpro/shape.py`
lines 28-34): `origin = firstLoop.vert.co`, the world position of the
boundary-start vertex. -/
structure Shape2dW where
  origin : Vec3
deriving DecidableEq

/-- `Shape2d.getMatrix` (`bpro/shape.py` lines 81-92), translated from the
source: `translationMatrix = Matrix.Translation(-origin)`, then the product
`rotationMatrix * translationMatrix` is returned.

The rotation factor is the parameter `R`. Modelled from the spec:
`rotation_zNormal_xHorizontal` (`bpro/utils.py`, not under `src/`) returns the
inverse (world-to-local) rotation, a pure rotation with zero translation; it is
taken here as an arbitrary 3×3 matrix since `getMatrix` only composes it.
The lazy memoization into `self.matrix` is modelled by purity. -/
def getMatrix (s : Shape2dW) (R : Mat3) : Mat4 :=
  Mat4.mul (Mat4.ofRot R) (Mat4.translation (-s.origin))

/-- C8: the derived frame acts on any world point by first applying the
inverse translation (subtracting the shape origin) and then the inverse
rotation, i.e. `frame = R⁻¹ · T⁻¹` with translation applied before rotation;
consequently the frame maps the boundary-start vertex position (the shape's
origin) to the local point (0,0,0). -/
theorem getMatrix_translation_before_rotation :
    ∀ (s : Shape2dW) (R : Mat3),
      (∀ p : Vec3, (getMatrix s R).applyPoint p = R.apply (p - s.origin)) ∧
      (getMatrix s R).applyPoint s.origin = (0 : Vec3) := by
  intro s R
  constructor
  · intro p
    simp only [getMatrix, Mat4.mul, Mat4.ofRot, Mat4.translation, Mat4.applyPoint,
      Mat3.apply, Vec3.neg_def, Vec3.sub_def, Vec3.mk.injEq]
    refine ⟨?_, ?_, ?_⟩ <;> ring
  · simp only [getMatrix, Mat4.mul, Mat4.ofRot, Mat4.translation, Mat4.applyPoint,
      Mat3.apply, Vec3.neg_def, Vec3.zero_def, Vec3.mk.injEq]
    refine ⟨?_, ?_, ?_⟩ <;> ring

/-- The slice of a `bmesh` face read by `getInitialShape`: its normal.
`bmesh.ops.reverse_faces` flips the face, negating its normal. -/
structure FaceB where
  normal : Vec3
deriving DecidableEq

/-- Models `bmesh.ops.reverse_faces` applied to one face: the winding is
reversed, so the face normal is negated. -/
def reverseFaces (f : FaceB) : FaceB := ⟨-f.normal⟩

/-- The slice of a `bmesh` mesh read by `getInitialShape`: its face list. -/
structure BMeshB where
  faces : List FaceB
deriving DecidableEq

/-- The result of `getInitialShape`: `Shape2d(face.loops[0])`, a shape
wrapping a face at its boundary loop of index 0. -/
structure Shape2dB where
  face : FaceB
  firstLoopIdx : ℕ
deriving DecidableEq

/-- `getInitialShape` (`bpro/shape.py` lines 12-21), translated from the
source: take `bm.faces[0]`; if its normal's z component is negative, reverse
the face; wrap `face.loops[0]` as a `Shape2d`. Indexing an empty face list
raises in Python; that is modelled as `none`. -/
def getInitialShape (bm : BMeshB) : Option Shape2dB :=
  match bm.faces with
  | [] => none
  | face :: _ =>
    let face := if face.normal.z < 0 then reverseFaces face else face
    some ⟨face, 0⟩

/-- C9: whenever `getInitialShape` returns a shape, that shape wraps the
first loop (index 0) of a face whose normal z component is non-negative:
a downward-pointing first face is reversed before wrapping. -/
theorem getInitialShape_normal_nonneg :
    ∀ (bm : BMeshB) (s : Shape2dB), getInitialShape bm = some s →
      0 ≤ s.face.normal.z ∧ s.firstLoopIdx = 0 := by
  intro bm s h
  match hb : bm.faces with
  | [] => simp [getInitialShape, hb] at h
  | face :: rest =>
    simp only [getInitialShape, hb] at h
    by_cases hz : face.normal.z < 0
    · rw [if_pos hz] at h
      cases h
      constructor
      · show 0 ≤ -face.normal.z
        linarith
      · rfl
    · rw [if_neg hz] at h
      cases h
      exact ⟨le_of_not_lt hz, rfl⟩

/-- Witness for C9: a mesh whose first face has normal (0,0,-1) yields a
shape wrapping loop 0 of the reversed face, with normal (0,0,1). -/
theorem getInitialShape_normal_nonneg_witness :
    0 ≤ (Shape2dB.mk ⟨⟨0, 0, 1⟩⟩ 0).face.normal.z ∧
      (Shape2dB.mk ⟨⟨0, 0, 1⟩⟩ 0).firstLoopIdx = 0 :=
  getInitialShape_normal_nonneg ⟨[⟨⟨0, 0, -1⟩⟩]⟩ ⟨⟨⟨0, 0, 1⟩⟩, 0⟩ (by decide)

/-- The comp-selector identifiers imported from `pro` in `bpro/shape.py`
line 4: `front, back, left, right, top, bottom, side, all`. -/
inductive Selector where
  | front
  | back
  | left
  | right
  | top
  | bottom
  | side
  | all
deriving DecidableEq

/-- `horizontalFaceThreshold` (`bpro/shape.py` line 9): the normal threshold
for `Shape3d.comp` to classify whether a face is horizontal or vertical;
the source sets it to the literal `0.70711` = 70711/100000 (written as a
reduced fraction so that kernel evaluation of comparisons is direct). -/
def horizontalFaceThreshold : ℚ := ⟨70711, 100000, by decide, by decide⟩

theorem horizontalFaceThreshold_eq : horizontalFaceThreshold = 70711 / 100000 := by
  unfold horizontalFaceThreshold
  rw [Rat.mk'_eq_divInt, Rat.divInt_eq_div]
  norm_num

/-- The slice of a constituent 2D shape read by `Shape3d.comp`:
`shape.face.normal`, the kernel-stored world normal of its face. -/
structure CompShape where
  normal : Vec3
deriving DecidableEq

/-- The classification step of `Shape3d.comp` (`bpro/shape.py` lines
195-206) applied to the rotated normal: returns the tentative selector
`shapeType` together with the `isVertical` flag. -/
def classifyOne (normal : Vec3) : Selector × Bool :=
  if |normal.z| > horizontalFaceThreshold then
    ((if normal.z > 0 then Selector.top else Selector.bottom), false)
  else
    ((if |normal.x| > |normal.y| then
        (if normal.x > 0 then Selector.front else Selector.back)
      else
        (if normal.y > 0 then Selector.right else Selector.left)), true)

/-- The fallback step of `Shape3d.comp` (`bpro/shape.py` lines 208-214):
if the tentative selector is not requested, fall back to `side` for vertical
faces, else to `all`, else drop the face (`shapeType = None`). -/
def resolveSelector (shapeType : Selector) (isVertical : Bool)
    (parts : List Selector) : Option Selector :=
  if shapeType ∈ parts then some shapeType
  else if Selector.side ∈ parts ∧ isVertical then some Selector.side
  else if Selector.all ∈ parts then some Selector.all
  else none

/-- The bucket insertion of `Shape3d.comp` (`bpro/shape.py` lines 216-219):
create the bucket on first use (at the end, matching Python dict insertion
order), else append to it. The dict is an association list. -/
def addToResult (result : List (Selector × List CompShape)) (k : Selector)
    (s : CompShape) : List (Selector × List CompShape) :=
  if result.any (fun kv => kv.1 = k) then
    result.map (fun kv => if kv.1 = k then (kv.1, kv.2 ++ [s]) else kv)
  else result ++ [(k, [s])]

/-- One iteration of the `for shape in self.shapes` loop of `Shape3d.comp`
(`bpro/shape.py` lines 193-219): rotate the face normal into the 3D shape's
frame, classify, resolve the selector, and append to its bucket (a `None`
selector drops the face). -/
def compStep (R : Mat3) (parts : List Selector)
    (result : List (Selector × List CompShape)) (shape : CompShape) :
    List (Selector × List CompShape) :=
  match resolveSelector (classifyOne (R.apply shape.normal)).1
      (classifyOne (R.apply shape.normal)).2 parts with
  | some k => addToResult result k shape
  | none => result

/-- `Shape3d.comp` (`bpro/shape.py` lines 187-220), translated from the
source. `R` is the 3D shape's rotation matrix; modelled from the spec:
`getRotationMatrix` calls `rotation_zNormal_xHorizontal` (`bpro/utils.py`,
not under `src/`), which returns the world-to-local rotation of the 3D
shape's frame — taken here as an arbitrary 3×3 matrix parameter. -/
def comp (R : Mat3) (shapes : List CompShape) (parts : List Selector) :
    List (Selector × List CompShape) :=
  shapes.foldl (compStep R parts) []

theorem classifyOne_ne_all_side (n : Vec3) :
    (classifyOne n).1 ≠ Selector.all ∧ (classifyOne n).1 ≠ Selector.side := by
  unfold classifyOne
  split_ifs <;> simp

theorem compStep_all_cons (R : Mat3) (s : CompShape) (acc : List CompShape) :
    compStep R [Selector.all] [(Selector.all, acc)] s =
      [(Selector.all, acc ++ [s])] := by
  have h := classifyOne_ne_all_side (R.apply s.normal)
  unfold compStep resolveSelector
  rw [if_neg (by simp [h.1]), if_neg (by simp), if_pos (by simp)]
  simp [addToResult]

theorem compStep_all_nil (R : Mat3) (s : CompShape) :
    compStep R [Selector.all] [] s = [(Selector.all, [s])] := by
  have h := classifyOne_ne_all_side (R.apply s.normal)
  unfold compStep resolveSelector
  rw [if_neg (by simp [h.1]), if_neg (by simp), if_pos (by simp)]
  rfl

theorem comp_all_go (R : Mat3) :
    ∀ (shapes acc : List CompShape),
      List.foldl (compStep R [Selector.all]) [(Selector.all, acc)] shapes =
        [(Selector.all, acc ++ shapes)] := by
  intro shapes
  induction shapes with
  | nil => intro acc; simp
  | cons s rest ih =>
    intro acc
    rw [List.foldl_cons, compStep_all_cons, ih]
    simp

/-- C7: in `Shape3d.comp`, (i) whenever the tentative selector of a face is
not among the requested selectors, the face is bucketed under `side` if it is
vertical and `side` is requested, else under `all` if `all` is requested, and
otherwise it is silently dropped (no error); and (ii) with `parts = [all]`
every constituent face lands in the `all` bucket exactly once, in constituent
order, and the lone key `all` is a requested selector that matched at least
one face (the result is empty only for an empty constituent list). -/
theorem comp_fallback_and_all_complete :
    (∀ (n : Vec3) (parts : List Selector), (classifyOne n).1 ∉ parts →
      resolveSelector (classifyOne n).1 (classifyOne n).2 parts =
        (if Selector.side ∈ parts ∧ (classifyOne n).2 = true then
          some Selector.side
        else if Selector.all ∈ parts then some Selector.all
        else none)) ∧
    (∀ (R : Mat3) (shapes : List CompShape),
      comp R shapes [Selector.all] =
        if shapes = [] then [] else [(Selector.all, shapes)]) := by
  constructor
  · intro n parts hnot
    unfold resolveSelector
    rw [if_neg hnot]
  · intro R shapes
    match shapes with
    | [] => simp [comp]
    | s :: rest =>
      rw [if_neg (by simp)]
      unfold comp
      rw [List.foldl_cons, compStep_all_nil, comp_all_go]
      simp

/-- Witness for C7: the face with rotated normal (0,0,1) has tentative
selector `top`, which is not in `[all]`, and is resolved to `all`; a
one-face 3D shape classified with `parts = [all]` yields exactly the bucket
`all` holding that face. -/
theorem comp_fallback_and_all_complete_witness :
    ((classifyOne ⟨0, 0, 1⟩).1 ∉ [Selector.all] ∧
      resolveSelector (classifyOne ⟨0, 0, 1⟩).1 (classifyOne ⟨0, 0, 1⟩).2
          [Selector.all] =
        (if Selector.side ∈ [Selector.all] ∧
            (classifyOne ⟨0, 0, 1⟩).2 = true then some Selector.side
         else if Selector.all ∈ [Selector.all] then some Selector.all
         else none)) ∧
    comp idMat3 [⟨⟨0, 0, 1⟩⟩] [Selector.all] =
      [(Selector.all, [⟨⟨0, 0, 1⟩⟩])] := by
  refine ⟨⟨by decide, comp_fallback_and_all_complete.1 ⟨0, 0, 1⟩ [Selector.all]
    (by decide)⟩, ?_⟩
  have h := comp_fallback_and_all_complete.2 idMat3 [⟨⟨0, 0, 1⟩⟩]
  rw [if_neg (by simp)] at h
  exact h

/-- C10: in the classification step of `Shape3d.comp`, a face whose local
normal has `|z|` exactly equal to the threshold `0.70711` is classified
vertical (the horizontal test is strict), and if moreover `|x| = |y|` the
tentative selector is decided by the Y axis: `right` when `y > 0`, else
`left` (the X test is strict as well). -/
theorem classifyOne_threshold_ties :
    ∀ n : Vec3, |n.z| = horizontalFaceThreshold →
      (classifyOne n).2 = true ∧
      (|n.x| = |n.y| →
        (classifyOne n).1 =
          (if n.y > 0 then Selector.right else Selector.left)) := by
  intro n hz
  have hnz : ¬ (|n.z| > horizontalFaceThreshold) := by rw [hz]; exact lt_irrefl _
  constructor
  · unfold classifyOne
    rw [if_neg hnz]
  · intro hxy
    have hnx : ¬ (|n.x| > |n.y|) := by rw [hxy]; exact lt_irrefl _
    unfold classifyOne
    rw [if_neg hnz, if_neg hnx]

/-- Witness for C10: the local normal (1,-1,0.70711) sits exactly on both
tie thresholds and is classified vertical with tentative selector `left`. -/
theorem classifyOne_threshold_ties_witness :
    (classifyOne ⟨1, -1, horizontalFaceThreshold⟩).2 = true ∧
      (|(⟨1, -1, horizontalFaceThreshold⟩ : Vec3).x| =
          |(⟨1, -1, horizontalFaceThreshold⟩ : Vec3).y| →
        (classifyOne ⟨1, -1, horizontalFaceThreshold⟩).1 =
          (if (⟨1, -1, horizontalFaceThreshold⟩ : Vec3).y > 0 then Selector.right
           else Selector.left)) :=
  classifyOne_threshold_ties ⟨1, -1, horizontalFaceThreshold⟩ (by decide)

/-- The split-direction identifiers `x`, `y` imported from `pro` in
`bpro/shape.py` line 3. -/
inductive Axis where
  | x
  | y
deriving DecidableEq

/-- A mesh face as read by `Rectangle.split`: its boundary vertex positions
in winding order. The boundary loop of index `i` starts at vertex `i`;
`link_loop_next` increments the index, wrapping around the boundary. -/
structure SFace where
  verts : List Vec3
deriving DecidableEq

/-- The start vertex position of boundary loop `i` (`loop.vert.co`). -/
def SFace.loopVert (f : SFace) (i : ℕ) : Vec3 :=
  f.verts.getD (i % f.verts.length) 0

/-- A `Rectangle` 2D shape: a face together with the index of the boundary
loop it wraps (`bpro/shape.py` lines 109-112; no state beyond `Shape2d`). -/
structure Rectangle where
  face : SFace
  firstLoopIdx : ℕ
deriving DecidableEq

/-- One mutable first slot of a cut entry, reflecting the dynamic typing of
the Python list cell: `calculateSplit` fills it with the cut parameter, and
`Rectangle.split` overwrites it with the created shape. -/
inductive CutSlot where
  | param (value : ℚ)
  | shape (r : Rectangle)
deriving DecidableEq

/-- Read a cut entry's first slot as a number, as the split loop does via
`cut[0]` before overwriting; a slot already holding a shape would be a
Python type error and is given the junk value 0 (never reached on the
output of `calculateSplit`). -/
def CutSlot.value : CutSlot → ℚ
  | CutSlot.param v => v
  | CutSlot.shape _ => 0

/-- Whether the slot holds a cut parameter. -/
def CutSlot.isParam : CutSlot → Bool
  | CutSlot.param _ => true
  | CutSlot.shape _ => false

/-- Modelled from the spec: `calculateSplit` (`pro/op_split.py`, not under
`src/`) converts a split specification (here a list of proportional sizes)
plus the total length into an ordered list of entries `[cutParameter,
placeholder]`, one entry per size, the parameters strictly increasing in
(0,1] with the last equal to 1: the i-th parameter is the i-th partial sum
of the sizes divided by their total (the spec's scenario `[1,2,1] ->
[0.25, 0.75, 1.0]`). The placeholder (rule) slot is modelled as `Unit`. -/
def calculateSplit (parts : List ℚ) (_totalLength : ℚ) : List (CutSlot × Unit) :=
  (List.range parts.length).map
    (fun i => (CutSlot.param ((parts.take (i + 1)).sum / parts.sum), ()))

/-- `Rectangle.createSplitShape` (`bpro/shape.py` lines 164-166): create a
new face from the given vertices (`bm.faces.new(verts)`) and wrap its first
boundary loop as a `Rectangle`. -/
def createSplitShape (verts : List Vec3) : Rectangle := ⟨⟨verts⟩, 0⟩

/-- The cut loop of `Rectangle.split` (`bpro/shape.py` lines 141-159),
carrying `prevVert1`/`prevVert2`: every cut section except the last
interpolates new vertices at the cut parameter along both edges (measured
from the origins) and creates a quad whose vertex order depends on the
direction; the final section closes with the original edge endpoints
instead. Each entry's first slot is overwritten with the created shape. -/
def splitRec (direction : Axis) (origin1 origin2 end1 end2 vec1 vec2 : Vec3) :
    List (CutSlot × Unit) → Vec3 → Vec3 → List (CutSlot × Unit)
  | [], _, _ => []
  | [cut], prevVert1, prevVert2 =>
    let verts := if direction = Axis.x then [prevVert1, end1, end2, prevVert2]
      else [prevVert2, prevVert1, end1, end2]
    [(CutSlot.shape (createSplitShape verts), cut.2)]
  | cut :: cut2 :: rest, prevVert1, prevVert2 =>
    let cutValue := cut.1.value
    let v1 := origin1 + cutValue • vec1
    let v2 := origin2 + cutValue • vec2
    let verts := if direction = Axis.x then [prevVert1, v1, v2, prevVert2]
      else [prevVert2, prevVert1, v1, v2]
    (CutSlot.shape (createSplitShape verts), cut.2) ::
      splitRec direction origin1 origin2 end1 end2 vec1 vec2 (cut2 :: rest) v1 v2

/-- `Rectangle.split` (`bpro/shape.py` lines 114-162), translated from the
source: the reference loop is the first loop for direction `x`, its
successor for `y`; the opposite loop is two steps further; `origin2`/`end1`
are the loops' end vertices. `eucLen` stands for the vector library's
Euclidean length (external `mathutils`; its irrational values are not
representable in ℚ, so it is passed as a function — the spec-modelled
`calculateSplit` output does not depend on it). Modelled from the spec:
`getEndVertex` (`bpro/utils.py`, not under `src/`) is `endVertex(ref)`, the
vertex the directed boundary reference points to, i.e. the next loop's
vertex. The `context.facesForRemoval.append` call mutates the external
session's deferred-removal list and does not affect the returned value. -/
def Rectangle.split (self : Rectangle) (direction : Axis) (parts : List ℚ)
    (eucLen : Vec3 → ℚ) : List (CutSlot × Unit) :=
  let referenceLoop := if direction = Axis.x then self.firstLoopIdx
    else self.firstLoopIdx + 1
  let cuts := calculateSplit parts
    (eucLen (self.face.loopVert (referenceLoop + 1) - self.face.loopVert referenceLoop))
  let oppositeLoop := referenceLoop + 2
  let origin1 := self.face.loopVert referenceLoop
  let origin2 := self.face.loopVert (oppositeLoop + 1)
  let end1 := self.face.loopVert (referenceLoop + 1)
  let end2 := self.face.loopVert oppositeLoop
  let vec1 := end1 - origin1
  let vec2 := end2 - origin2
  splitRec direction origin1 origin2 end1 end2 vec1 vec2 cuts origin1 origin2

theorem splitRec_length (direction : Axis) (o1 o2 e1 e2 w1 w2 : Vec3) :
    ∀ (cuts : List (CutSlot × Unit)) (p1 p2 : Vec3),
      (splitRec direction o1 o2 e1 e2 w1 w2 cuts p1 p2).length = cuts.length := by
  intro cuts
  induction cuts with
  | nil => intro p1 p2; rfl
  | cons c rest ih =>
    intro p1 p2
    match rest with
    | [] => rfl
    | c2 :: rest2 =>
      simp only [splitRec, List.length_cons]
      rw [ih]
      simp

theorem splitRec_all_shapes (direction : Axis) (o1 o2 e1 e2 w1 w2 : Vec3) :
    ∀ (cuts : List (CutSlot × Unit)) (p1 p2 : Vec3),
      ∀ entry ∈ splitRec direction o1 o2 e1 e2 w1 w2 cuts p1 p2,
        ∃ r, entry.1 = CutSlot.shape r := by
  intro cuts
  induction cuts with
  | nil => intro p1 p2 entry h; exact absurd h (List.not_mem_nil entry)
  | cons c rest ih =>
    intro p1 p2 entry h
    match rest with
    | [] =>
      simp only [splitRec, List.mem_singleton] at h
      exact ⟨_, by rw [h]⟩
    | c2 :: rest2 =>
      simp only [splitRec, List.mem_cons] at h
      rcases h with h | h
      · exact ⟨_, by rw [h]⟩
      · exact ih _ _ entry h

theorem calculateSplit_length (parts : List ℚ) (L : ℚ) :
    (calculateSplit parts L).length = parts.length := by
  simp [calculateSplit]

theorem calculateSplit_strict_mono (parts : List ℚ) (L : ℚ)
    (hpos : ∀ p ∈ parts, 0 < p) :
    List.Chain' (· < ·) ((calculateSplit parts L).map (fun c => c.1.value)) := by
  unfold calculateSplit
  rw [List.map_map]
  have heq : ((fun c : CutSlot × Unit => c.1.value) ∘
      (fun i => (CutSlot.param ((parts.take (i + 1)).sum / parts.sum), ()))) =
      (fun i => (parts.take (i + 1)).sum / parts.sum) := rfl
  rw [heq]
  match hn : parts.length with
  | 0 => simp
  | m + 1 =>
    rw [List.chain'_map, List.chain'_range_succ]
    intro i hi
    have hlt : i + 1 < parts.length := by omega
    have hsum : (parts.take (i + 2)).sum =
        (parts.take (i + 1)).sum + parts.get ⟨i + 1, hlt⟩ := by
      rw [List.take_succ, List.sum_append, List.getElem?_eq_getElem hlt]
      simp
    have htot : 0 < parts.sum :=
      List.sum_pos parts hpos (by intro hemp; rw [hemp] at hn; simp at hn)
    apply div_lt_div_of_pos_right _ htot
    rw [hsum]
    have : 0 < parts.get ⟨i + 1, hlt⟩ := hpos _ (parts.get_mem _ _)
    linarith

theorem calculateSplit_last_one (parts : List ℚ) (L : ℚ)
    (hne : parts ≠ []) (hpos : ∀ p ∈ parts, 0 < p) :
    ((calculateSplit parts L).map (fun c => c.1.value)).getLast? = some 1 := by
  unfold calculateSplit
  rw [List.map_map]
  have heq : ((fun c : CutSlot × Unit => c.1.value) ∘
      (fun i => (CutSlot.param ((parts.take (i + 1)).sum / parts.sum), ()))) =
      (fun i => (parts.take (i + 1)).sum / parts.sum) := rfl
  rw [heq]
  have hn : 0 < parts.length := List.length_pos.mpr hne
  obtain ⟨m, hm⟩ := Nat.exists_eq_add_of_lt hn
  rw [zero_add] at hm
  rw [hm, List.range_succ, List.map_append]
  simp only [List.map_cons, List.map_nil]
  rw [List.getLast?_concat]
  have htot : 0 < parts.sum := List.sum_pos parts hpos hne
  have hfull : parts.take (m + 1) = parts := by
    rw [← hm]
    exact List.take_length parts
  rw [hfull, div_self (ne_of_gt htot)]

/-- C1 counterexample: splitting the unit-square rectangle along X with the
spec's scenario sizes `[1,2,1]` returns three entries none of which carries a
cut parameter in any component: the first slot of every entry has been
overwritten with the created shape (the source docstring says the entries
are `(cutShape, ruleForTheCutShape)`), and the second slot is the rule
placeholder. So the returned entries are not pairs `(cutParameter,
resultingShape)` as the claim states. -/
theorem split_entries_not_param_shape_pairs :
    (Rectangle.split ⟨⟨[⟨0, 0, 0⟩, ⟨1, 0, 0⟩, ⟨1, 1, 0⟩, ⟨0, 1, 0⟩]⟩, 0⟩
        Axis.x [1, 2, 1] (fun _ => 1)).map (fun e => e.1.isParam) =
      [false, false, false] := by decide

/-- C1 (amended): for a nonempty list of positive sizes, the sizing
algorithm produces exactly one cut entry per size with strictly increasing
cut parameters whose last value is 1, and `Rectangle.split` returns exactly
one entry per size, each entry holding in its first slot the resulting
shape (which has replaced the cut parameter). -/
theorem split_ordered_cuts_one_shape_per_size :
    ∀ (r : Rectangle) (direction : Axis) (parts : List ℚ) (eucLen : Vec3 → ℚ)
      (L : ℚ), parts ≠ [] → (∀ p ∈ parts, 0 < p) →
      List.Chain' (· < ·) ((calculateSplit parts L).map (fun c => c.1.value)) ∧
      ((calculateSplit parts L).map (fun c => c.1.value)).getLast? = some 1 ∧
      (calculateSplit parts L).length = parts.length ∧
      (Rectangle.split r direction parts eucLen).length = parts.length ∧
      (∀ entry ∈ Rectangle.split r direction parts eucLen,
        ∃ s, entry.1 = CutSlot.shape s) := by
  intro r direction parts eucLen L hne hpos
  refine ⟨calculateSplit_strict_mono parts L hpos,
    calculateSplit_last_one parts L hne hpos,
    calculateSplit_length parts L, ?_, ?_⟩
  · unfold Rectangle.split
    rw [splitRec_length, calculateSplit_length]
  · unfold Rectangle.split
    intro entry h
    exact splitRec_all_shapes _ _ _ _ _ _ _ _ _ _ entry h

/-- Witness for C1 (amended): the unit square split along X by `[1,2,1]`
yields three entries, all holding shapes. -/
theorem split_ordered_cuts_one_shape_per_size_witness :
    (Rectangle.split ⟨⟨[⟨0, 0, 0⟩, ⟨1, 0, 0⟩, ⟨1, 1, 0⟩, ⟨0, 1, 0⟩]⟩, 0⟩
        Axis.x [1, 2, 1] (fun _ => 1)).length = ([1, 2, 1] : List ℚ).length ∧
      ((calculateSplit [1, 2, 1] 4).map (fun c => c.1.value)).getLast? =
        some 1 :=
  ⟨(split_ordered_cuts_one_shape_per_size
      ⟨⟨[⟨0, 0, 0⟩, ⟨1, 0, 0⟩, ⟨1, 1, 0⟩, ⟨0, 1, 0⟩]⟩, 0⟩ Axis.x [1, 2, 1]
      (fun _ => 1) 4 (by decide) (by decide)).2.2.2.1,
   (split_ordered_cuts_one_shape_per_size
      ⟨⟨[⟨0, 0, 0⟩, ⟨1, 0, 0⟩, ⟨1, 1, 0⟩, ⟨0, 1, 0⟩]⟩, 0⟩ Axis.x [1, 2, 1]
      (fun _ => 1) 4 (by decide) (by decide)).2.1⟩

/-- C6 counterexample: splitting a pentagon — a shape that does not have
exactly 4 boundary vertices — does not fail: `Rectangle.split` contains no
vertex-count check and no raise statement (no `DegenerateShapeError` exists
anywhere in the source), and here it returns a normal result of two shape
entries. -/
theorem split_pentagon_returns_result :
    (Rectangle.split
        ⟨⟨[⟨0, 0, 0⟩, ⟨2, 0, 0⟩, ⟨3, 1, 0⟩, ⟨1, 2, 0⟩, ⟨-1, 1, 0⟩]⟩, 0⟩
        Axis.x [1, 1] (fun _ => 1)).map (fun e => e.1.isParam) =
      [false, false] ∧
    (⟨[⟨0, 0, 0⟩, ⟨2, 0, 0⟩, ⟨3, 1, 0⟩, ⟨1, 2, 0⟩, ⟨-1, 1, 0⟩]⟩ :
        SFace).verts.length = 5 := by decide

/-- C6 (amended): `Rectangle.split` performs no validation of the boundary
vertex count: for a face with any number of boundary vertices it treats the
loops at offsets 0..3 from the reference loop as the quad corners (wrapping
around the boundary) and returns one entry per size without raising. -/
theorem split_no_vertex_count_validation :
    ∀ (r : Rectangle) (direction : Axis) (parts : List ℚ)
      (eucLen : Vec3 → ℚ),
      (Rectangle.split r direction parts eucLen).length = parts.length := by
  intro r direction parts eucLen
  unfold Rectangle.split
  rw [splitRec_length, calculateSplit_length]

/-- Modelled from the spec: `verticalNormalThreshold` (`bpro/utils.py`, not
under `src/`): the fixed threshold against which `Shape2d.extrude` compares
the extruded face's normal z component, default √0.5 ≈ 0.70711 (represented
exactly as the reduced fraction 70711/100000, the same literal the source
uses for the companion threshold in `bpro/shape.py` line 9). -/
def verticalNormalThreshold : ℚ := ⟨70711, 100000, by decide, by decide⟩

/-!
The mesh state that `Shape2d.extrude` traverses after its calls into the
external kernel (`bmesh.ops.extrude_face_region` + `bmesh.ops.translate`) is
the prism complex over the base polygon: for a base with `N + 3` vertices
`v i` (the parameter `N` keeps the polygon size at least 3), the kernel
leaves the original (base) face — whose winding `extrude_face_region`
reverses so the resulting closed shell is consistently oriented —, creates
the cap face with vertices `w i` (same winding the base had before the
flip), and for every boundary edge a side quad `S i` with corners
`v i, v (i+1), w (i+1), w i`.

Loops (directed boundary positions; `PLoop.base i` starts at `v i`, etc.):
after the flip the base loop at `v i` runs along edge `eB (i-1)` (the base
edge between `v (i-1)` and `v i`) towards `v (i-1)`; the cap loop at `w i`
runs along `eT i` towards `w (i+1)`; the quad `S i` is traversed
`w (i+1) → w i → v i → v (i+1)` by its loops `sTop i, sLeft i, sBot i,
sRight i` with edges `eT i, eV i, eB i, eV (i+1)` (`eV i` is the vertical
edge between `v i` and `w i`).
-/

/-- A boundary loop of the post-extrusion prism mesh (`bmesh` `BMLoop`). -/
inductive PLoop (N : ℕ) where
  | base (i : Fin (N + 3))
  | cap (i : Fin (N + 3))
  | sTop (i : Fin (N + 3))
  | sLeft (i : Fin (N + 3))
  | sBot (i : Fin (N + 3))
  | sRight (i : Fin (N + 3))
deriving DecidableEq

/-- A face of the post-extrusion prism mesh (`bmesh` `BMFace`). -/
inductive PFace (N : ℕ) where
  | baseF
  | capF
  | sideF (i : Fin (N + 3))
deriving DecidableEq

/-- An edge of the post-extrusion prism mesh (`bmesh` `BMEdge`). -/
inductive PEdge (N : ℕ) where
  | eB (i : Fin (N + 3))
  | eT (i : Fin (N + 3))
  | eV (i : Fin (N + 3))
deriving DecidableEq

/-- `loop.link_loop_next`: the next loop around the loop's face. -/
def linkLoopNext {N : ℕ} : PLoop N → PLoop N
  | PLoop.base i => PLoop.base (i - 1)
  | PLoop.cap i => PLoop.cap (i + 1)
  | PLoop.sTop i => PLoop.sLeft i
  | PLoop.sLeft i => PLoop.sBot i
  | PLoop.sBot i => PLoop.sRight i
  | PLoop.sRight i => PLoop.sTop i

/-- `loop.edge`: the edge a loop runs along. -/
def loopEdge {N : ℕ} : PLoop N → PEdge N
  | PLoop.base i => PEdge.eB (i - 1)
  | PLoop.cap i => PEdge.eT i
  | PLoop.sTop i => PEdge.eT i
  | PLoop.sLeft i => PEdge.eV i
  | PLoop.sBot i => PEdge.eB i
  | PLoop.sRight i => PEdge.eV (i + 1)

/-- `loop.face`: the face a loop belongs to. -/
def loopFace {N : ℕ} : PLoop N → PFace N
  | PLoop.base _ => PFace.baseF
  | PLoop.cap _ => PFace.capF
  | PLoop.sTop i => PFace.sideF i
  | PLoop.sLeft i => PFace.sideF i
  | PLoop.sBot i => PFace.sideF i
  | PLoop.sRight i => PFace.sideF i

/-- `edge.link_faces`: the two faces radially sharing an edge. -/
def edgeLinkFaces {N : ℕ} : PEdge N → PFace N × PFace N
  | PEdge.eB i => (PFace.baseF, PFace.sideF i)
  | PEdge.eT i => (PFace.sideF i, PFace.capF)
  | PEdge.eV i => (PFace.sideF (i - 1), PFace.sideF i)

/-- `edge.link_loops`: the loops radially around an edge. -/
def edgeLinkLoops {N : ℕ} : PEdge N → List (PLoop N)
  | PEdge.eB i => [PLoop.base (i + 1), PLoop.sBot i]
  | PEdge.eT i => [PLoop.cap i, PLoop.sTop i]
  | PEdge.eV i => [PLoop.sLeft i, PLoop.sRight (i - 1)]

/-- `loop.link_loops`: the other loops radially sharing the loop's edge
(every edge of the prism complex has exactly two radial loops, so this list
is a singleton). -/
def loopLinkLoops {N : ℕ} (l : PLoop N) : List (PLoop N) :=
  (edgeLinkLoops (loopEdge l)).filter (fun l2 => l2 ≠ l)

/-- A constituent entry of the `shapes` list assembled by `Shape2d.extrude`:
the original shape object `self`, or a wrapper created during extrusion —
`wrap false l` is `Shape2d(l)` (a plain planar shape), `wrap true l` is
`Rectangle(l)`. -/
inductive ShapeC (N : ℕ) where
  | orig
  | wrap (isRect : Bool) (l : PLoop N)
deriving DecidableEq

/-- The `Shape3d` value returned by `Shape2d.extrude`: the constituent list
and the boundary loop passed to the `Shape3d` constructor. -/
structure Shape3dP (N : ℕ) where
  shapes : List (ShapeC N)
  firstLoop : PLoop N
deriving DecidableEq

/-- The loop test of the topology-recovery `for` loop in `Shape2d.extrude`
(`bpro/shape.py` lines 57-61): the loop two steps ahead lies on an edge one
of whose faces is the extruded (cap) face. -/
def connectsExtruded {N : ℕ} (l : PLoop N) : Bool :=
  let oppositeLoop := linkLoopNext (linkLoopNext l)
  let fs := edgeLinkFaces (loopEdge oppositeLoop)
  (fs.1 == PFace.capF) || (fs.2 == PFace.capF)

/-- One step of the side-face ring walk (`bpro/shape.py` line 72):
`loop = loop.link_loop_next.link_loops[0].link_loop_next`. Indexing `[0]`
on an empty list would raise in Python; the junk default is never reached
because every `link_loops` list here is a singleton. -/
def walkStep {N : ℕ} (l : PLoop N) : PLoop N :=
  linkLoopNext ((loopLinkLoops (linkLoopNext l)).headD (linkLoopNext l))

/-- The `while True` ring walk of `Shape2d.extrude` (`bpro/shape.py` lines
69-74): append `Rectangle(loop)`, step to the next side face, stop when the
walk returns to the starting loop. The `fuel` argument bounds the unbounded
source loop; `extrude` passes `N + 3`, which suffices (the walk returns to
its start after exactly `N + 3` steps, see `ringWalk_sBot`). -/
def ringWalk (N : ℕ) : ℕ → PLoop N → PLoop N → List (ShapeC N)
  | 0, _, _ => []
  | fuel + 1, firstLoop, loop =>
    ShapeC.wrap true loop ::
      (if walkStep loop = firstLoop then []
       else ringWalk N fuel firstLoop (walkStep loop))

/-- `Shape2d.extrude` (`bpro/shape.py` lines 36-79), translated from the
source over the prism complex: find, among the loops radially linked to the
first loop's edge, one whose face connects the original and extruded faces
(the Python `for`/`break` keeps the last examined loop if none matches —
never the case here); wrap the loop radially opposite the found loop's
opposite loop (a cap loop) as the second constituent; then walk the side
ring only when the extruded face's normal z component exceeds the
threshold (`extrudedFace.normal[2] > verticalNormalThreshold`, the general
case being a no-op `pass`); finally build `Shape3d(shapes, self.firstLoop)`.

`j` is the index of the base boundary loop the original shape wraps (after
the kernel's winding flip), and `capNormalZ` is the kernel-computed normal z
component of the extruded face (the geometric translation of the cap by
`depth * normal` changes no topology and is absorbed by the kernel model). -/
def extrude (N : ℕ) (j : Fin (N + 3)) (capNormalZ : ℚ) : Shape3dP N :=
  let edge := loopEdge (PLoop.base j)
  let loops := edgeLinkLoops edge
  let loop := (loops.find? connectsExtruded).getD (loops.getLastD (PLoop.base j))
  let oppositeLoop := linkLoopNext (linkLoopNext loop)
  let shapes := [ShapeC.orig,
    ShapeC.wrap false ((loopLinkLoops oppositeLoop).headD oppositeLoop)]
  let shapes := if capNormalZ > verticalNormalThreshold then
      shapes ++ ringWalk N (N + 3) loop loop
    else shapes
  ⟨shapes, PLoop.base j⟩

/-- The side-face loop identified by the topology-recovery step of
`Shape2d.extrude` (the local variable `loop` at `bpro/shape.py` line 66),
exposed for specification. -/
def extrudeSideLoop (N : ℕ) (j : Fin (N + 3)) : PLoop N :=
  let loops := edgeLinkLoops (loopEdge (PLoop.base j))
  (loops.find? connectsExtruded).getD (loops.getLastD (PLoop.base j))

theorem connectsExtruded_base {N : ℕ} (j : Fin (N + 3)) :
    connectsExtruded (PLoop.base j) = false := by
  simp [connectsExtruded, linkLoopNext, loopEdge, edgeLinkFaces]

theorem connectsExtruded_sBot {N : ℕ} (i : Fin (N + 3)) :
    connectsExtruded (PLoop.sBot i) = true := by
  simp [connectsExtruded, linkLoopNext, loopEdge, edgeLinkFaces]

theorem find_connects {N : ℕ} (j : Fin (N + 3)) :
    (edgeLinkLoops (loopEdge (PLoop.base j))).find? connectsExtruded =
      some (PLoop.sBot (j - 1)) := by
  have h1 : j - 1 + 1 = j := by ring
  show (edgeLinkLoops (PEdge.eB (j - 1))).find? connectsExtruded = _
  simp only [edgeLinkLoops, h1]
  rw [List.find?_cons_of_neg _ (by rw [connectsExtruded_base]; simp),
    List.find?_cons_of_pos _ (connectsExtruded_sBot (j - 1))]

theorem loopLinkLoops_sTop {N : ℕ} (i : Fin (N + 3)) :
    loopLinkLoops (PLoop.sTop i) = [PLoop.cap i] := by
  simp [loopLinkLoops, loopEdge, edgeLinkLoops, List.filter]

theorem loopLinkLoops_sRight {N : ℕ} (i : Fin (N + 3)) :
    loopLinkLoops (PLoop.sRight i) = [PLoop.sLeft (i + 1)] := by
  have h : i + 1 - 1 = i := by ring
  simp [loopLinkLoops, loopEdge, edgeLinkLoops, h, List.filter]

theorem walkStep_sBot {N : ℕ} (i : Fin (N + 3)) :
    walkStep (PLoop.sBot i) = PLoop.sBot (i + 1) := by
  show linkLoopNext ((loopLinkLoops (PLoop.sRight i)).headD (PLoop.sRight i)) = _
  rw [loopLinkLoops_sRight]
  rfl

theorem ringWalk_sBot {N : ℕ} :
    ∀ (d fuel : ℕ) (a i : Fin (N + 3)), ((a - i - 1 : Fin (N + 3)) : ℕ) = d →
      d + 1 ≤ fuel →
      ringWalk N fuel (PLoop.sBot a) (PLoop.sBot i) =
        (List.range (d + 1)).map
          (fun (k : ℕ) => ShapeC.wrap true (PLoop.sBot (i + (k : Fin (N + 3))))) := by
  intro d
  induction d with
  | zero =>
    intro fuel a i hd hfuel
    have h0 : a - i - 1 = 0 := Fin.ext hd
    have ha : a = i + 1 := by linear_combination h0
    match fuel, hfuel with
    | f + 1, _ =>
      simp only [ringWalk, walkStep_sBot, ha, if_pos]
      rw [show List.range 1 = [0] from rfl, List.map_cons, List.map_nil]
      simp
  | succ d ih =>
    intro fuel a i hd hfuel
    have hne : PLoop.sBot (i + 1) ≠ PLoop.sBot a := by
      intro hc
      have ha : i + 1 = a := by
        have := PLoop.sBot.inj hc
        exact this
      have h0 : a - i - 1 = 0 := by linear_combination - ha
      rw [h0] at hd
      simp at hd
    match fuel, hfuel with
    | f + 1, hfuel =>
      have hstep : ((a - (i + 1) - 1 : Fin (N + 3)) : ℕ) = d := by
        have he : a - (i + 1) - 1 = (a - i - 1) - 1 := by ring
        have hnz : a - i - 1 ≠ 0 := by
          intro hc
          rw [hc] at hd
          simp at hd
        rw [he, Fin.coe_sub_one, if_neg hnz, hd]
        omega
      have hf : d + 1 ≤ f := by omega
      simp only [ringWalk, walkStep_sBot, if_neg hne]
      rw [ih f a (i + 1) hstep hf]
      conv_rhs => rw [List.range_succ_eq_map, List.map_cons, List.map_map]
      refine congrArg₂ List.cons ?_ ?_
      · simp
      · refine List.map_congr_left ?_
        intro k _
        show ShapeC.wrap true (PLoop.sBot (i + 1 + (k : Fin (N + 3)))) =
          ShapeC.wrap true (PLoop.sBot (i + ((k + 1 : ℕ) : Fin (N + 3))))
        have hc : ((k + 1 : ℕ) : Fin (N + 3)) = (k : Fin (N + 3)) + 1 := by
          push_cast
          ring
        rw [hc]
        refine congrArg _ (congrArg _ ?_)
        ring

theorem extrude_shapes_eq (N : ℕ) (j : Fin (N + 3)) (z : ℚ) :
    (extrude N j z).shapes =
      if z > verticalNormalThreshold then
        ShapeC.orig :: ShapeC.wrap false (PLoop.cap (j - 1)) ::
          (List.range (N + 3)).map
            (fun (k : ℕ) => ShapeC.wrap true (PLoop.sBot (j - 1 + (k : Fin (N + 3)))))
      else [ShapeC.orig, ShapeC.wrap false (PLoop.cap (j - 1))] := by
  have hfind : ((edgeLinkLoops (loopEdge (PLoop.base j))).find?
      connectsExtruded).getD
        ((edgeLinkLoops (loopEdge (PLoop.base j))).getLastD (PLoop.base j)) =
      PLoop.sBot (j - 1) := by
    rw [find_connects]
    rfl
  have hopp : linkLoopNext (linkLoopNext (PLoop.sBot (j - 1))) =
      PLoop.sTop (j - 1) := rfl
  have hwalk : ringWalk N (N + 3) (PLoop.sBot (j - 1)) (PLoop.sBot (j - 1)) =
      (List.range (N + 3)).map
        (fun (k : ℕ) => ShapeC.wrap true (PLoop.sBot (j - 1 + (k : Fin (N + 3))))) := by
    have hm1 : ((j - 1) - (j - 1) - 1 : Fin (N + 3)) = -1 := by ring
    have hd : (((j - 1) - (j - 1) - 1 : Fin (N + 3)) : ℕ) = N + 2 := by
      rw [hm1]
      exact Fin.coe_neg_one
    exact ringWalk_sBot (N + 2) (N + 3) (j - 1) (j - 1) hd (by omega)
  simp only [extrude, hfind, hopp, loopLinkLoops_sTop, List.headD_cons]
  split_ifs with h
  · rw [hwalk]
    rfl
  · rfl

/-- C3: extruding a horizontal-cap base wrapped at base loop `j` (condition
`capNormalZ > verticalNormalThreshold`) yields constituents
`shapes[0] = self` (the original base shape), `shapes[1]` a plain planar
`Shape2d` wrapping a cap loop, and `shapes[2..]` the side quads wrapped as
`Rectangle`s in ring (boundary traversal) order; the total count is the
side count plus 2, and every side face's quad appears. -/
theorem extrude_horizontal_cap_constituents :
    ∀ (N : ℕ) (j : Fin (N + 3)) (capNormalZ : ℚ),
      capNormalZ > verticalNormalThreshold →
      (extrude N j capNormalZ).shapes =
        ShapeC.orig :: ShapeC.wrap false (PLoop.cap (j - 1)) ::
          (List.range (N + 3)).map
            (fun (k : ℕ) =>
              ShapeC.wrap true (PLoop.sBot (j - 1 + (k : Fin (N + 3))))) ∧
      (extrude N j capNormalZ).shapes.length = (N + 3) + 2 ∧
      loopFace (PLoop.cap (j - 1)) = PFace.capF ∧
      (∀ i : Fin (N + 3),
        ShapeC.wrap true (PLoop.sBot i) ∈ (extrude N j capNormalZ).shapes) := by
  intro N j z h
  have heq := extrude_shapes_eq N j z
  rw [if_pos h] at heq
  refine ⟨heq, ?_, rfl, ?_⟩
  · rw [heq]
    simp only [List.length_cons, List.length_map, List.length_range]
  · intro i
    rw [heq]
    refine List.mem_cons_of_mem _ (List.mem_cons_of_mem _ ?_)
    rw [List.mem_map]
    refine ⟨((i - (j - 1) : Fin (N + 3)) : ℕ), ?_, ?_⟩
    · rw [List.mem_range]
      exact (i - (j - 1)).isLt
    · rw [Fin.cast_val_eq_self]
      refine congrArg _ (congrArg _ ?_)
      ring

/-- Witness for C3: a triangle base (side count 3) extruded with cap normal
z = 1 yields 3 + 2 = 5 constituent shapes. -/
theorem extrude_horizontal_cap_constituents_witness :
    (1 : ℚ) > verticalNormalThreshold ∧
      (extrude 0 0 1).shapes.length = (0 + 3) + 2 :=
  ⟨by decide, (extrude_horizontal_cap_constituents 0 0 1 (by decide)).2.1⟩

/-- C4 counterexample: a cap whose normal z component is -1 (below
-√0.5, so its absolute value exceeds the threshold) is NOT treated as
horizontal: the source compares the signed component
(`extrudedFace.normal[2] > verticalNormalThreshold`, `bpro/shape.py` line
67), so the ring is not walked and only base and cap are collected (2
constituents instead of the 3 + 2 = 5 the claim would require). -/
theorem extrude_signed_threshold_counterexample :
    |(-1 : ℚ)| > verticalNormalThreshold ∧
      (-1 : ℚ) < -verticalNormalThreshold ∧
      (extrude 0 0 (-1)).shapes.length = 2 ∧ (0 + 3) + 2 ≠ 2 := by decide

/-- C4 (amended): the side-face ring walk is performed if and only if the
cap normal's SIGNED z component exceeds the threshold √0.5; a cap with
z component below -√0.5 takes the general (no-op) branch. -/
theorem extrude_walk_iff_signed_z :
    ∀ (N : ℕ) (j : Fin (N + 3)) (capNormalZ : ℚ),
      (extrude N j capNormalZ).shapes.length =
        if capNormalZ > verticalNormalThreshold then (N + 3) + 2 else 2 := by
  intro N j z
  rw [extrude_shapes_eq]
  split_ifs with h
  · simp only [List.length_cons, List.length_map, List.length_range]
  · rfl

/-- C2 counterexample: an oblique extrusion (cap normal z = 0, not
classified horizontal) does not raise anything: the general branch of
`Shape2d.extrude` is a no-op `pass` (`bpro/shape.py` lines 75-77), no
`UnsupportedExtrusionError` exists anywhere in the source, and a
`Shape3d` result holding just the base and the cap is returned. -/
theorem extrude_oblique_no_error :
    (0 : ℚ) ≤ verticalNormalThreshold ∧
      (extrude 0 0 0).shapes =
        [ShapeC.orig, ShapeC.wrap false (PLoop.cap (0 - 1))] ∧
      (extrude 0 0 0).shapes.length = 2 := by decide

/-- C2 (amended): for every extrusion whose cap is not classified
horizontal, `extrude` silently returns a Volumetric Shape whose
constituents are only the original base and the cap wrapper — side-face
discovery is skipped and no error is raised. -/
theorem extrude_oblique_returns_base_cap :
    ∀ (N : ℕ) (j : Fin (N + 3)) (capNormalZ : ℚ),
      ¬ capNormalZ > verticalNormalThreshold →
      (extrude N j capNormalZ).shapes =
        [ShapeC.orig, ShapeC.wrap false (PLoop.cap (j - 1))] := by
  intro N j z h
  rw [extrude_shapes_eq, if_neg h]

/-- Witness for C2 (amended): cap normal z = 0 yields exactly the base and
the cap wrapper. -/
theorem extrude_oblique_returns_base_cap_witness :
    ¬ (0 : ℚ) > verticalNormalThreshold ∧
      (extrude 0 0 0).shapes =
        [ShapeC.orig, ShapeC.wrap false (PLoop.cap (0 - 1))] :=
  ⟨by decide, extrude_oblique_returns_base_cap 0 0 0 (by decide)⟩

/-- C5 counterexample: the returned `Shape3d`'s boundary reference is the
base shape's own first loop (`Shape3d(shapes, self.firstLoop)`,
`bpro/shape.py` line 79), and it differs from the first side face's
boundary reference identified in the topology-recovery step. -/
theorem extrude_firstLoop_not_side_counterexample :
    (extrude 0 0 1).firstLoop = PLoop.base 0 ∧
      extrudeSideLoop 0 0 = PLoop.sBot (0 - 1) ∧
      (extrude 0 0 1).firstLoop ≠ extrudeSideLoop 0 0 := by decide

/-- C5 (amended): for every extrusion the returned Volumetric Shape is
constructed with `boundaryStart` equal to the base shape's own
`firstLoop`, not the side-face boundary reference identified in the
topology-recovery step (which is the bottom loop of the side quad at the
preceding boundary index). -/
theorem extrude_firstLoop_is_base_boundary :
    ∀ (N : ℕ) (j : Fin (N + 3)) (capNormalZ : ℚ),
      (extrude N j capNormalZ).firstLoop = PLoop.base j ∧
      extrudeSideLoop N j = PLoop.sBot (j - 1) ∧
      PLoop.base j ≠ PLoop.sBot (j - 1) := by
  intro N j z
  refine ⟨rfl, ?_, by simp⟩
  show ((edgeLinkLoops (loopEdge (PLoop.base j))).find? connectsExtruded).getD
      ((edgeLinkLoops (loopEdge (PLoop.base j))).getLastD (PLoop.base j)) = _
  rw [find_connects]
  rfl
